import Mathlib

/-!
Shallow embedding of the sysaidmin plan-orchestration engine.

Each definition mirrors one item of the Rust source (file and symbol named in
its doc comment).  Machine strings are modelled as Lean `String`s; Rust
`usize`/`i32` become `Nat`/`Int`; fallible Rust functions returning
`Result`/`anyhow::Result` become `Except String` (or `Except AllowlistError`);
external effects (the file system, spawned processes) are threaded through an
explicit `World` state; external collaborators (the planning-service HTTP
client, the process spawner) are supplied as oracle parameters.  UUIDs and
wall-clock timestamps are external randomness: task identity is carried by
list position (creation order equals list order), and timestamps are passed in
as plain strings where a log entry records one.
-/

namespace Sysaidmin

/-! ## Character-level string helpers

Models of the Rust standard-library string operations the sources lean on
(`str::trim`, `str::lines`, splitting on a separator).  They are written as
structural recursions over the character list of a `String` so that every
definition of the embedding evaluates on concrete inputs. -/

/-- Split a character list at every occurrence of `c` (the separator is
dropped; `n+1` chunks for `n` separators, as Rust `split` / `splitOn` do). -/
def splitOnChar (c : Char) : List Char → List (List Char)
  | [] => [[]]
  | x :: xs =>
      match splitOnChar c xs with
      | [] => if x = c then [[], []] else [[x]]
      | h :: t => if x = c then [] :: h :: t else (x :: h) :: t

/-- The text before the first newline, and whether a newline was present. -/
def firstLineChars : List Char → List Char × Bool
  | [] => ([], false)
  | x :: xs =>
      if x = '\n' then ([], true)
      else
        let (l, b) := firstLineChars xs
        (x :: l, b)

/-- ASCII whitespace (the whitespace classes Rust `trim` strips that occur in
this program's data). -/
def isWsChar (c : Char) : Bool :=
  c = ' ' ∨ c = '\t' ∨ c = '\n' ∨ c = '\r'

/-- Strip leading and trailing whitespace from a character list. -/
def trimChars (l : List Char) : List Char :=
  ((l.dropWhile isWsChar).reverse.dropWhile isWsChar).reverse

/-- Rust `str::trim` on a `String`. -/
def rustTrim (s : String) : String :=
  String.mk (trimChars s.data)

/-! ## Task model (src/sysaidmin/src/task.rs) -/

/-- `TaskStatus` from task.rs: the closed task lifecycle state set. -/
inductive TaskStatus where
  | proposed
  | ready
  | blocked (reason : String)
  | running
  | complete
deriving DecidableEq, Repr

/-- `CommandTask` from task.rs. -/
structure CommandTask where
  shell : String
  command : String
  cwd : Option String
  requires_root : Bool
deriving DecidableEq, Repr

/-- `FileEditTask` from task.rs. -/
structure FileEditTask where
  path : Option String
  new_text : String
  description : Option String
deriving DecidableEq, Repr

/-- `TaskDetail` from task.rs: tagged union over the three task variants. -/
inductive TaskDetail where
  | command (c : CommandTask)
  | fileEdit (e : FileEditTask)
  | note (details : String)
deriving DecidableEq, Repr

/-- `Task` from task.rs.  The Rust struct additionally stores `id : Uuid` and
`created_at : DateTime` — both produced by external randomness / the clock and
used only as an opaque identity and a (strictly increasing) ordering key, so
here identity and creation order are carried by the task's position in the
surrounding list. -/
structure Task where
  description : String
  detail : TaskDetail
  status : TaskStatus
  annotations : List String
deriving DecidableEq, Repr

/-- `Task::new` from task.rs: fresh tasks start `Proposed` with no
annotations. -/
def Task.new (description : String) (detail : TaskDetail) : Task :=
  { description := description, detail := detail, status := .proposed, annotations := [] }

/-! ## Policy engine (src/sysaidmin/src/allowlist.rs) -/

/-- `Allowlist` from allowlist.rs.  A compiled `Regex` is an opaque total
matcher, so each compiled pattern is modelled as its `is_match` function
`String → Bool`. -/
structure Allowlist where
  command_regexes : List (String → Bool)
  file_regexes : List (String → Bool)
  max_edit_size_kb : Nat

/-- `AllowlistError` from allowlist.rs. -/
inductive AllowlistError where
  | commandDenied (command : String)
  | fileDenied (path : String)
  | editTooLarge (path : String) (limit : Nat)
deriving DecidableEq, Repr

/-- The `thiserror` display strings of `AllowlistError` (allowlist.rs),
used by app.rs when folding a denial into a `Blocked` reason. -/
def allowlistMessage : AllowlistError → String
  | .commandDenied c => "command \x27" ++ c ++ "\x27 is not allowlisted"
  | .fileDenied p => "file \x27" ++ p ++ "\x27 is not allowlisted"
  | .editTooLarge p limit => "edit for \x27" ++ p ++ "\x27 exceeds " ++ toString limit ++ " KiB limit"

/-- `Allowlist::evaluate` from allowlist.rs.  Rust `edit.new_text.len()` is the
UTF-8 byte length, hence `String.utf8ByteSize`; `/ 1024` is integer (floor)
division as in the source. -/
def evaluate (al : Allowlist) (task : Task) : Except AllowlistError TaskStatus :=
  match task.detail with
  | .command cmd =>
      if al.command_regexes.any (fun re => re cmd.command) then
        .ok .ready
      else
        .error (.commandDenied cmd.command)
  | .fileEdit edit =>
      let size_kb := edit.new_text.utf8ByteSize / 1024
      let sizeResult : Except AllowlistError TaskStatus :=
        if al.max_edit_size_kb < size_kb then
          .error (.editTooLarge (edit.path.getD "<buffer>") al.max_edit_size_kb)
        else
          .ok .ready
      match edit.path with
      | some p =>
          if al.file_regexes.any (fun re => re p) then sizeResult
          else .error (.fileDenied p)
      | none => sizeResult
  | .note _ => .ok .ready

/-! ## Plan parser (src/sysaidmin/src/parser.rs)

The raw-text stages of `parse_plan` (code-fence stripping, balanced-brace
extraction and the serde JSON decode) turn the planning service's free-form
response into an `LlmPlan` value; that decode is performed by the external
`serde_json` library, so the embedding starts from its outcome
(`Except String LlmPlan`) and covers the in-repo mapping of decoded plan items
to tasks. -/

/-- `LlmPlanItem` from parser.rs: one raw plan item as decoded from JSON. -/
structure LlmPlanItem where
  id : Option String
  kind : Option String
  description : Option String
  command : Option String
  shell : Option String
  requires_root : Option Bool
  cwd : Option String
  path : Option String
  new_text : Option String
  details : Option String
deriving DecidableEq, Repr

/-- `LlmPlan` from parser.rs: the decoded planning-service response. -/
structure LlmPlan where
  summary : Option String
  plan : List LlmPlanItem
deriving DecidableEq, Repr

/-- `ParsedPlan` from parser.rs. -/
structure ParsedPlan where
  summary : Option String
  tasks : List Task
deriving DecidableEq, Repr

/-- First element of Rust `str::lines()`: `none` on the empty string;
otherwise the text up to the first newline, with a carriage return stripped
when it preceded that newline (a trailing `\r` with no following `\n` is
kept, as in Rust). -/
def rustFirstLine (s : String) : Option String :=
  if s = "" then none
  else
    let (l, found) := firstLineChars s.data
    if found then
      some (String.mk (if l.getLast? = some '\r' then l.dropLast else l))
    else
      some (String.mk l)

/-- Character-level truncation used to model the byte slice `&line[..60]` of
parser.rs (the two agree on ASCII text; Rust counts bytes and panics when
byte 60 splits a multi-byte character, a behaviour outside this model). -/
def takeChars (s : String) (n : Nat) : String :=
  String.mk (s.data.take n)

/-- The note-description synthesis of parser.rs: first line of the note body,
truncated to 60 with an ellipsis appended when longer, literally "Note" when
the body is empty. -/
def synthNoteDescription (details : String) : String :=
  match rustFirstLine details with
  | some line => if 60 < line.length then takeChars line 60 ++ "…" else line
  | none => "Note"

/-- The per-item body of the `for entry in llm_plan.plan` loop of
`parse_plan` (parser.rs): maps one raw item to a `Task` or fails. -/
def itemToTask (default_shell : String) (it : LlmPlanItem) : Except String Task :=
  match it.kind.getD "note" with
  | "command" =>
      let description := it.description.getD "Command task"
      match it.command with
      | none => .error "command task missing \x27command\x27 field"
      | some command =>
          .ok (Task.new description (.command
            { shell := it.shell.getD default_shell
              command := command
              cwd := it.cwd
              requires_root := it.requires_root.getD false }))
  | "file_edit" =>
      let description := it.description.getD "File edit"
      match it.new_text with
      | none => .error "file_edit task missing \x27new_text\x27"
      | some new_text =>
          .ok (Task.new description (.fileEdit
            { path := it.path, new_text := new_text, description := it.details }))
  | _ =>
      let details := (it.details.or it.description).getD "Note"
      let description :=
        match it.description.filter (fun d => d != "Note" && !(d == "")) with
        | some d => d
        | none => synthNoteDescription details
      .ok (Task.new description (.note details))

/-- The task-accumulating loop of `parse_plan` (parser.rs): items are mapped
in order and the first failure aborts the whole parse, exactly as the `?`
operator does in the Rust loop. -/
def itemsToTasks (default_shell : String) : List LlmPlanItem → Except String (List Task)
  | [] => .ok []
  | it :: rest => do
      let t ← itemToTask default_shell it
      let ts ← itemsToTasks default_shell rest
      .ok (t :: ts)

/-- The tail of `parse_plan` (parser.rs), from the decoded `LlmPlan` on: map
every item, then reject an empty task list as a hard failure. -/
def parse_plan_items (default_shell : String) (lp : LlmPlan) : Except String ParsedPlan :=
  match itemsToTasks default_shell lp.plan with
  | .error e => .error e
  | .ok tasks =>
      if tasks.isEmpty then
        .error "SYSAIDMIN response did not include any plan items"
      else
        .ok { summary := lp.summary, tasks := tasks }

/-! ## Executor (src/sysaidmin/src/executor.rs)

The operating-system surface the executor touches is modelled explicitly: a
`FileSystem` of created directories and written files (paths as component
lists, a `String` path entering the executor is split on `/` as
`PathBuf::from` does), and a `World` that additionally records every spawned
process.  The process spawner itself is external, so `run_command` takes an
oracle giving the (exit status, stdout, stderr) outcome of a spawn. -/

/-- `ExecutionResult` from executor.rs. -/
structure ExecutionResult where
  status : Int
  stdout : String
  stderr : String
deriving DecidableEq, Repr

/-- `FileEditOutcome` from executor.rs (paths as component lists). -/
structure FileEditOutcome where
  path : List String
  backup_path : Option (List String)
deriving DecidableEq, Repr

/-- The file-system state the executor can observe or change. -/
structure FileSystem where
  dirs : List (List String)
  files : List (List String × String)
deriving DecidableEq, Repr

/-- The external world: the file system plus the record of spawned
processes. -/
structure World where
  fs : FileSystem
  spawned : List CommandTask
deriving DecidableEq, Repr

/-- `Executor` from executor.rs. -/
structure Executor where
  dry_run : Bool
deriving DecidableEq, Repr

/-- Path components, as `PathBuf::from` on a `/`-separated string. -/
def pathComponents (s : String) : List String :=
  (splitOnChar '/' s.data).map String.mk

/-- Rendering a component path back to a string (Rust `path.display()`). -/
def pathToString (p : List String) : String :=
  String.intercalate "/" p

/-- `fs::create_dir_all`: creates the directory and every missing ancestor.
`create_dir_all` of the empty path (the `parent()` of a bare file name) is a
no-op, as in Rust; the root component prefix `[""]` is never recorded. -/
def createDirAll (fs : FileSystem) (dir : List String) : FileSystem :=
  let wanted := (List.range dir.length).map (fun k => dir.take (k + 1))
  { fs with dirs := fs.dirs ++ wanted.filter (fun p => !fs.dirs.contains p && p != [""]) }

/-- Look up a file's contents. -/
def lookupFile (fs : FileSystem) (p : List String) : Option String :=
  (fs.files.find? (fun q => q.1 == p)).map (fun q => q.2)

/-- `fs::write`: create or replace the file at `p`. -/
def writeFile (fs : FileSystem) (p : List String) (text : String) : FileSystem :=
  { fs with files := (p, text) :: fs.files.filter (fun q => !(q.1 == p)) }

/-- `Path::with_extension "sysaidmin.bak"` on the final path component:
replaces an existing extension, else appends one. -/
def withBakExt (s : String) : String :=
  match splitOnChar '.' s.data with
  | [] => s ++ ".sysaidmin.bak"
  | [_] => s ++ ".sysaidmin.bak"
  | parts => String.intercalate "." ((parts.dropLast).map String.mk) ++ ".sysaidmin.bak"

/-- The backup path `path.with_extension("sysaidmin.bak")` of executor.rs. -/
def backupPathOf (p : List String) : List String :=
  p.dropLast ++ [withBakExt (p.getLastD "")]

/-- `Executor::create_backup_if_exists` from executor.rs: when the target file
exists, copy its contents to the backup path and report it. -/
def create_backup_if_exists (fs : FileSystem) (p : List String) :
    FileSystem × Option (List String) :=
  match lookupFile fs p with
  | none => (fs, none)
  | some contents =>
      let backup := backupPathOf p
      (writeFile fs backup contents, some backup)

/-- `Executor::run_command` from executor.rs.  In dry mode the synthetic
zero-status result is returned before anything touches the world; otherwise
the shell is spawned (recorded in `World.spawned`) and the oracle supplies the
spawn's outcome (`Except.error` being a transport-level spawn failure). -/
def run_command (ex : Executor) (oracle : CommandTask → Except String ExecutionResult)
    (task : CommandTask) (w : World) : World × Except String ExecutionResult :=
  if ex.dry_run then
    (w, .ok { status := 0
              stdout := "(dry-run) command would execute: " ++ task.command
              stderr := "" })
  else
    ({ w with spawned := w.spawned ++ [task] }, oracle task)

/-- `Executor::apply_file_edit` from executor.rs.  Mirrors the source's
statement order: the missing-path check first, then `create_dir_all` on the
parent (note: this runs BEFORE the dry-run check), then, when not in dry mode,
backup and write. -/
def apply_file_edit (ex : Executor) (edit : FileEditTask) (w : World) :
    World × Except String FileEditOutcome :=
  match edit.path with
  | none => (w, .error "file edit missing path")
  | some path_str =>
      let path := pathComponents path_str
      let w := { w with fs := createDirAll w.fs path.dropLast }
      if ex.dry_run then
        (w, .ok { path := path, backup_path := none })
      else
        let (fs1, backup_path) := create_backup_if_exists w.fs path
        let fs2 := writeFile fs1 path edit.new_text
        ({ w with fs := fs2 }, .ok { path := path, backup_path := backup_path })

/-! ## Conversation history (src/sysaidmin/src/conversation.rs) and the
token-budget manager (src/sysaidmin/src/tokenizer.rs) -/

/-- `ConversationEntry` from conversation.rs: the five-variant tagged union of
the append-only conversation log. -/
inductive ConversationEntry where
  | prompt (timestamp prompt : String)
  | plan (timestamp : String) (summary : Option String) (task_count : Nat)
      (response : Option String)
  | command (timestamp task_id description command shell : String)
      (exit_code : Int) (stdout stderr : String)
  | fileEdit (timestamp task_id description path : String)
      (backup_path : Option String)
  | note (timestamp task_id description details : String)
deriving DecidableEq, Repr

/-- `approximate_tokens` from tokenizer.rs: `chars().count() / 4 + 1`
(Lean `String.length` is the character count, as in the source). -/
def approximate_tokens (text : String) : Nat :=
  text.length / 4 + 1

/-- `entry_tokens` from tokenizer.rs. -/
def entry_tokens : ConversationEntry → Nat
  | .prompt _ p => approximate_tokens p
  | .plan _ summary _ response =>
      match response with
      | some resp => approximate_tokens resp
      | none =>
          match summary with
          | some s => approximate_tokens s + 50
          | none => 50
  | .command _ _ description command _ _ stdout stderr =>
      approximate_tokens description + approximate_tokens command
        + approximate_tokens stdout + approximate_tokens stderr + 20
  | .fileEdit _ _ description path _ =>
      approximate_tokens description + approximate_tokens path + 10
  | .note _ _ description details =>
      approximate_tokens description + approximate_tokens details + 10

/-- The greedy walk of `truncate_history` (tokenizer.rs): the input here is
the history already reversed (most recent first); an entry is kept while the
running total stays within the budget and the walk stops at the first entry
that would overflow it. -/
def truncTake (available : Nat) : List ConversationEntry → Nat → List ConversationEntry
  | [], _ => []
  | e :: rest, total =>
      if total + entry_tokens e ≤ available then
        e :: truncTake available rest (total + entry_tokens e)
      else
        []

/-- `truncate_history` from tokenizer.rs.  `Nat` subtraction is saturating,
as `usize::saturating_sub` is; the Rust loop builds its result by
`insert(0, ·)` while walking `history.iter().rev()`, which is the reverse of
the greedy walk over the reversed history. -/
def truncate_history (history : List ConversationEntry)
    (max_tokens system_prompt_tokens current_prompt_tokens : Nat) :
    List ConversationEntry :=
  let available_tokens :=
    max_tokens - system_prompt_tokens - current_prompt_tokens - 100
  if available_tokens = 0 then []
  else (truncTake available_tokens history.reverse 0).reverse

/-! ## The application state and its operations (src/sysaidmin/src/app.rs)

`App` is embedded as a record of the fields the orchestration logic reads or
writes.  Display-only counters (scroll offsets, the spinner frame) are
omitted; the Anthropic client, the session store and the shell-history writer
are external collaborators, so the planning/synthesis responses arrive through
oracle parameters and the session/history writes (whose failures the source
only logs) are not recorded.  The conversation log is modelled as the list of
entries appended so far.  Every operation is a total function from state to
state: no code path of these handlers exits the process. -/

/-- `MessageType` from tui.rs (the variants app.rs sends). -/
inductive MessageType where
  | info
  | success
  | warning
  | error
  | command
  | recommendation
deriving DecidableEq, Repr

/-- The fields of `AppConfig` (config.rs) that the embedded logic reads. -/
structure AppConfig where
  default_shell : String
  history_limit : Nat
deriving Repr

/-- The external inputs of one control-loop turn: the process spawner, the
synthesis response, and the current wall-clock timestamp. -/
structure Externals where
  spawn : CommandTask → Except String ExecutionResult
  synth : Except String String
  now : String

/-- `App` from app.rs, restricted to the orchestration-relevant fields.
`plan_receiver` models `Option<Receiver<PlanResponse>>` by its presence. -/
structure AppState where
  tasks : List Task
  selected : Nat
  input : String
  logs : List String
  summary : Option String
  execution_results : List (Nat × ExecutionResult)
  analysis_result : Option String
  is_loading_plan : Bool
  last_prompt : Option String
  messages : List (String × MessageType)
  config : AppConfig
  allowlist : Allowlist
  executor : Executor
  approval_queue : List Nat
  conversation : List ConversationEntry
  plan_receiver : Bool

/-- `App::log` from app.rs: push the line, then drain the excess beyond
`history_limit` from the front (the session-file append is external). -/
def appLog (st : AppState) (line : String) : AppState :=
  let l := st.logs ++ [line]
  { st with logs := l.drop (l.length - st.config.history_limit) }

/-- `App::add_message` from app.rs (the scroll-offset reset is display-only
and omitted). -/
def add_message (st : AppState) (content : String) (t : MessageType) : AppState :=
  { st with messages := st.messages ++ [(content, t)] }

/-- `HashMap::insert` on the `execution_results` map, keyed by task index. -/
def insertResult (rs : List (Nat × ExecutionResult)) (i : Nat) (r : ExecutionResult) :
    List (Nat × ExecutionResult) :=
  (i, r) :: rs.filter (fun q => !(q.1 == i))

/-- Replace the task at index `i` (in-place mutation of `self.tasks[i]`). -/
def modifyTask (f : Task → Task) : List Task → Nat → List Task
  | [], _ => []
  | t :: ts, 0 => f t :: ts
  | t :: ts, i + 1 => t :: modifyTask f ts i

/-- Set the status of the task at index `i`. -/
def setStatus (tasks : List Task) (i : Nat) (s : TaskStatus) : List Task :=
  modifyTask (fun t => { t with status := s }) tasks i

/-- Mark the task at index `i` `Complete`, appending the given annotations. -/
def completeAt (tasks : List Task) (i : Nat) (anns : List String) : List Task :=
  modifyTask (fun t => { t with status := .complete, annotations := t.annotations ++ anns })
    tasks i

/-- `App::first_pending_index` from app.rs: index of the first task whose
status is not `Complete`. -/
def firstPendingIndex : List Task → Option Nat
  | [] => none
  | t :: ts =>
      if t.status = .complete then (firstPendingIndex ts).map (· + 1)
      else some 0

/-- `truncate` from app.rs (200-character log truncation; this helper really
counts characters in the source). -/
def truncate200 (text : String) : String :=
  if text.length ≤ 200 then text else takeChars text 200 ++ "…"

/-- The 200-unit preview used for command output messages in
`App::execute_selected` (a byte slice in the source, modelled at character
level; the two agree on ASCII output). -/
def msgPreview (s : String) : String :=
  if s.length ≤ 200 then s else takeChars s 200 ++ "..."

/-- `format_error_chain` from app.rs.  The embedding's errors are single
plain strings, so the anyhow cause chain collapses to one part: newlines are
flattened to spaces, the result trimmed, and an all-whitespace message
becomes "Unknown error". -/
def format_error_chain (msg : String) : String :=
  let cleaned := rustTrim (String.mk (msg.data.map (fun c => if c = '\n' ∨ c = '\r' then ' ' else c)))
  if cleaned = "" then "Unknown error" else cleaned

/-- Is the detail a `Note`? -/
def isNoteDetail : TaskDetail → Bool
  | .note _ => true
  | _ => false

/-- The note body of a detail (used when logging an auto-completed note). -/
def noteDetails : TaskDetail → String
  | .note d => d
  | _ => ""

/-- Does the task carry executable content (`Command` or `FileEdit`)? -/
def isExecutableDetail : TaskDetail → Bool
  | .command _ => true
  | .fileEdit _ => true
  | .note _ => false

/-- The auto-complete condition of app.rs plan installation: a `Note` task
whose status is `Ready` or `Proposed` is completed and removed immediately. -/
def autoNote (t : Task) : Bool :=
  isNoteDetail t.detail && (t.status == .ready || t.status == .proposed)

/-- The allowlist pass of `App::handle_plan_response`: each task's status
becomes the engine's verdict (`Ready`) or `Blocked` with the denial's display
string. -/
def evaluateTasks (al : Allowlist) (tasks : List Task) : List Task :=
  tasks.map fun t =>
    match evaluate al t with
    | .ok s => { t with status := s }
    | .error e => { t with status := .blocked (allowlistMessage e) }

/-- Plan installation as it lands in `App.tasks`: allowlist verdicts applied,
then auto-completed notes removed.  (`sort_tasks_by_status` re-sorts by
`created_at`, which is the identity on a creation-ordered list and so is not
re-modelled.) -/
def installPlan (al : Allowlist) (tasks : List Task) : List Task :=
  (evaluateTasks al tasks).filter (fun t => !autoNote t)

/-- `App::select_first_incomplete_or_blocked` from app.rs. -/
def select_first_incomplete_or_blocked (st : AppState) : AppState :=
  if st.tasks.isEmpty then { st with selected := 0 }
  else
    match st.tasks.findIdx? (fun t => t.status == .ready) with
    | some idx => { st with selected := idx }
    | none =>
        match st.tasks.findIdx? (fun t => match t.status with | .blocked _ => true | _ => false) with
        | some idx => { st with selected := idx }
        | none =>
            match st.tasks.findIdx? (fun t => !(t.status == .complete)) with
            | some idx => { st with selected := idx }
            | none => { st with selected := 0 }

/-- One task's block in the synthesis results summary
(`App::synthesize_results`). -/
def taskResultBlock (st : AppState) (idx : Nat) (t : Task) : String :=
  if isExecutableDetail t.detail then
    "Task " ++ toString (idx + 1) ++ ": " ++ t.description ++ "\n"
      ++ (match (st.execution_results.find? (fun q => q.1 == idx)).map (fun q => q.2) with
          | some r =>
              "  Exit code: " ++ toString r.status ++ "\n"
                ++ (if rustTrim r.stdout = "" then "" else "  STDOUT:\n" ++ r.stdout ++ "\n")
                ++ (if rustTrim r.stderr = "" then "" else "  STDERR:\n" ++ r.stderr ++ "\n")
          | none => "")
      ++ (match t.detail with | .fileEdit _ => "  File edit completed\n" | _ => "")
      ++ "\n"
  else ""

/-- The results summary string built by `App::synthesize_results`. -/
def resultsSummary (st : AppState) : String :=
  "Execution Results:\n\n"
    ++ String.join (st.tasks.enum.map (fun p => taskResultBlock st p.1 p.2))

/-- `App::synthesize_results` from app.rs: build the synthesis prompt and
consume the planning service's synthesis response (supplied by the oracle). -/
def synthesize_results (env : Externals) (st : AppState) : AppState :=
  let results_summary := resultsSummary st
  let original_prompt := st.last_prompt.getD "Analyze the results"
  let _synthesis_prompt := original_prompt ++ "\n\n" ++ results_summary
  match env.synth with
  | .ok analysis =>
      let st := { st with analysis_result := some analysis }
      let st := add_message st "✓ Analysis complete" .success
      let st := add_message st analysis .recommendation
      let st := appLog st "✓ Analysis complete. Review in Results pane (↑/↓ to scroll)."
      let st := appLog st "Next: Ask a follow-up question or press \x27r\x27 to run more tasks."
      let entry := ConversationEntry.note env.now "synthesis" "Analysis Result" analysis
      { st with conversation := st.conversation ++ [entry] }
  | .error _ =>
      let st := add_message st "All tasks completed successfully. (Synthesis unavailable)" .warning
      appLog st "All tasks completed successfully. (Synthesis unavailable)"

/-- `App::check_and_synthesize_results` from app.rs. -/
def check_and_synthesize_results (env : Externals) (st : AppState) : AppState :=
  let has_executable_tasks := st.tasks.any (fun t => isExecutableDetail t.detail)
  if !has_executable_tasks then st
  else
    let all_complete :=
      st.tasks.all (fun t => t.status == .complete || isNoteDetail t.detail)
    if !all_complete then st
    else if st.analysis_result.isSome then st
    else if st.execution_results.isEmpty then appLog st "All tasks completed."
    else
      let st := add_message st "All tasks completed. Generating analysis..." .info
      synthesize_results env st

/-- `App::mark_complete_with_log` from app.rs.  The re-sort by `created_at`
is the identity and the selection, restored by task id, stays at the same
index. -/
def markCompleteWithLog (st : AppState) (summaryLine : String)
    (exec : Option ExecutionResult) (edit : Option FileEditOutcome) : AppState :=
  let anns := (exec.map (fun r => "exit " ++ toString r.status)).toList
    ++ (edit.map (fun o => "written " ++ pathToString o.path)).toList
  let st := { st with tasks := completeAt st.tasks st.selected anns }
  let st := appLog st summaryLine
  match exec with
  | some r =>
      let st := if rustTrim r.stdout = "" then st else appLog st ("stdout: " ++ truncate200 r.stdout)
      if rustTrim r.stderr = "" then st else appLog st ("stderr: " ++ truncate200 r.stderr)
  | none => st

/-- `App::set_blocked` from app.rs. -/
def set_blocked (st : AppState) (reason : String) : AppState :=
  let st := { st with tasks := setStatus st.tasks st.selected (.blocked reason) }
  appLog st reason

mutual

/-- `App::execute_selected` from app.rs.  The dispatched execution is
synchronous: the selected task (when `Ready`/`Proposed`) goes `Running`, the
collaborator runs, and the task resolves to `Complete` (then the controller
continues) or `Blocked`.  `fuel` bounds the recursion through
`continue_sequential_execution`; each recursive call consumes one unit. -/
def execute_selected (env : Externals) (fuel : Nat) (st : AppState) (w : World) :
    AppState × World :=
  match fuel with
  | 0 => (st, w)
  | f + 1 =>
      match st.tasks.get? st.selected with
      | none => (st, w)
      | some task =>
          if task.status = .ready ∨ task.status = .proposed then
            let desc := task.description
            let st := { st with tasks := setStatus st.tasks st.selected .running }
            match task.detail with
            | .command cmd =>
                let full_command :=
                  match cmd.cwd with
                  | some cwd => "cd " ++ cwd ++ " && " ++ cmd.command
                  | none => cmd.command
                let st := add_message st ("Running: " ++ full_command) .command
                let (w, res) := run_command st.executor env.spawn cmd w
                match res with
                | .ok result =>
                    let er := insertResult st.execution_results st.selected result
                    let st := { st with execution_results := er }
                    let entry := ConversationEntry.command env.now "" desc cmd.command
                      cmd.shell result.status result.stdout result.stderr
                    let st := { st with conversation := st.conversation ++ [entry] }
                    let st :=
                      if result.status = 0 then
                        let st := add_message st
                          ("✓ Command succeeded (exit " ++ toString result.status ++ ")") .success
                        if rustTrim result.stdout = "" then st
                        else add_message st ("Output: " ++ msgPreview result.stdout) .info
                      else
                        let st := add_message st
                          ("✗ Command failed (exit " ++ toString result.status ++ ")") .error
                        if rustTrim result.stderr = "" then st
                        else add_message st ("Error: " ++ msgPreview result.stderr) .error
                    let st := markCompleteWithLog st
                      ("Executed \x27" ++ desc ++ "\x27 exit " ++ toString result.status)
                      (some result) none
                    continue_sequential_execution env f st w
                | .error err =>
                    let formatted := format_error_chain err
                    let st := add_message st ("✗ Execution failed: " ++ formatted) .error
                    let st := appLog st ("Execution failed: " ++ formatted)
                    (set_blocked st ("execution failed: " ++ formatted), w)
            | .fileEdit edit =>
                let (w, res) := apply_file_edit st.executor edit w
                match res with
                | .ok outcome =>
                    let entry := ConversationEntry.fileEdit env.now "" desc
                      (pathToString outcome.path) (outcome.backup_path.map pathToString)
                    let st := { st with conversation := st.conversation ++ [entry] }
                    let st := markCompleteWithLog st
                      ("Wrote " ++ pathToString outcome.path ++ " (backup: "
                        ++ (outcome.backup_path.map pathToString).getD "none" ++ ")")
                      none (some outcome)
                    continue_sequential_execution env f st w
                | .error err =>
                    let formatted := format_error_chain err
                    let st := appLog st ("Edit failed: " ++ formatted)
                    (set_blocked st ("edit failed: " ++ formatted), w)
            | .note details =>
                let entry := ConversationEntry.note env.now "" desc details
                let st := { st with conversation := st.conversation ++ [entry] }
                let st := appLog st ("Note: " ++ details)
                let st := { st with tasks := setStatus st.tasks st.selected .complete }
                let next_incomplete :=
                  ((st.tasks.drop (st.selected + 1)).findIdx?
                      (fun t => !(t.status == .complete))).map (fun k => st.selected + 1 + k)
                match next_incomplete with
                | some idx => ({ st with selected := idx }, w)
                | none => (select_first_incomplete_or_blocked st, w)
          else (st, w)

/-- `App::continue_sequential_execution` from app.rs: after a task resolves,
re-scan from the head for the first non-`Complete` task and act on it. -/
def continue_sequential_execution (env : Externals) (fuel : Nat) (st : AppState) (w : World) :
    AppState × World :=
  match fuel with
  | 0 => (st, w)
  | f + 1 =>
      let st := check_and_synthesize_results env st
      match firstPendingIndex st.tasks with
      | some idx =>
          let st := { st with selected := idx }
          match st.tasks.get? idx with
          | none => (st, w)
          | some t =>
              match t.status with
              | .ready | .proposed =>
                  let st := add_message st ("Continuing with: " ++ t.description) .info
                  let st := appLog st ("Continuing with: " ++ t.description)
                  execute_selected env f st w
              | .blocked _ =>
                  let st := { st with approval_queue := [idx] }
                  (appLog st ("Next task requires approval: " ++ t.description), w)
              | .running =>
                  (appLog st ("Waiting for running task: " ++ t.description), w)
              | .complete => (st, w)
      | none =>
          let st := appLog st "All tasks complete."
          (check_and_synthesize_results env st, w)

/-- `App::start_sequential_execution` from app.rs. -/
def start_sequential_execution (env : Externals) (fuel : Nat) (st : AppState) (w : World) :
    AppState × World :=
  match fuel with
  | 0 => (st, w)
  | f + 1 =>
      match firstPendingIndex st.tasks with
      | some idx =>
          let st := { st with selected := idx }
          match st.tasks.get? idx with
          | none => (st, w)
          | some t =>
              match t.status with
              | .ready | .proposed =>
                  let st := add_message st
                    ("Starting plan execution with: " ++ t.description) .info
                  let st := appLog st ("Starting plan execution with: " ++ t.description)
                  execute_selected env f st w
              | .blocked _ =>
                  let st := { st with approval_queue := [idx] }
                  (appLog st ("First task requires approval before running: " ++ t.description), w)
              | .running =>
                  (appLog st ("Waiting for running task: " ++ t.description), w)
              | .complete => continue_sequential_execution env f st w
      | none =>
          let st := appLog st "All tasks complete."
          (check_and_synthesize_results env st, w)

end

/-- `App::handle_plan_response` from app.rs.  `raw` is the response text and
`decoded` the outcome of its raw-text-to-`LlmPlan` stage (fence stripping,
brace extraction and the external serde decode); the in-repo item mapping
`parse_plan_items` completes `parse_plan`.  On success the plan is installed
and sequential execution starts; on a parse error the failure is reported and
the state is otherwise left as it was. -/
def handle_plan_response (env : Externals) (fuel : Nat) (raw : String)
    (decoded : Except String LlmPlan) (st : AppState) (w : World) : AppState × World :=
  match decoded.bind (fun lp => parse_plan_items st.config.default_shell lp) with
  | .ok parsed =>
      let st := { st with summary := parsed.summary, tasks := parsed.tasks, selected := 0 }
      let planEntry := ConversationEntry.plan env.now parsed.summary parsed.tasks.length
        (some raw)
      let st := { st with conversation := st.conversation ++ [planEntry] }
      let evaluated := evaluateTasks st.allowlist st.tasks
      let removed := evaluated.filter autoNote
      let removedEntries := removed.map (fun t =>
        ConversationEntry.note env.now "" t.description (noteDetails t.detail))
      let st := { st with conversation := st.conversation ++ removedEntries }
      let st := { st with tasks := evaluated.filter (fun t => !autoNote t) }
      let st := match st.summary with
        | some s => add_message st s .info
        | none => st
      let st := add_message st ("Plan created with " ++ toString st.tasks.length ++ " tasks")
        .success
      let st := appLog st "Plan created successfully."
      start_sequential_execution env fuel st w
  | .error err =>
      let formatted := format_error_chain err
      let st := add_message st ("Failed parsing plan: " ++ formatted) .error
      (appLog st ("Failed parsing plan: " ++ formatted), w)

/-- The four outcomes of polling the single-slot plan channel
(`Receiver::try_recv` in `App::poll_plan_response`).  A successful receive
carries the raw response text together with the outcome of its external
decode stage. -/
inductive PollOutcome where
  | success (raw : String) (decoded : Except String LlmPlan)
  | failed (msg : String)
  | empty
  | disconnected

/-- `App::poll_plan_response` from app.rs: take the receiver, try to receive;
an empty poll puts the receiver back (a net no-op), a received result is
consumed exactly once, and a failure or disconnection is reported without
touching the plan. -/
def poll_plan_response (env : Externals) (fuel : Nat) (poll : PollOutcome)
    (st : AppState) (w : World) : AppState × World :=
  if st.plan_receiver = false then (st, w)
  else
    match poll with
    | .success raw decoded =>
        handle_plan_response env fuel raw decoded
          { st with plan_receiver := false, is_loading_plan := false } w
    | .failed msg =>
        let st := { st with plan_receiver := false, is_loading_plan := false }
        let st := add_message st ("Failed requesting plan: " ++ msg) .error
        (appLog st ("Failed requesting plan: " ++ msg), w)
    | .empty => (st, w)
    | .disconnected =>
        let st := { st with plan_receiver := false, is_loading_plan := false }
        (appLog st "Plan request channel disconnected before response finished.", w)

/-- `App::submit_prompt` from app.rs.  An empty (trimmed) prompt is ignored;
while a plan request is in flight (`plan_receiver` held or the loading flag
set) the prompt is rejected with an explicit already-running notice; otherwise
the loading state is set, the prompt logged to the conversation, and the
background worker spawned (`plan_receiver := true`). -/
def submit_prompt (env : Externals) (st : AppState) : AppState :=
  let prompt := rustTrim st.input
  if prompt = "" then st
  else if st.plan_receiver || st.is_loading_plan then
    let m := "A plan is already running. Please wait for it to finish."
    appLog (add_message st m .warning) m
  else
    let st := { st with input := "" }
    let st := { st with is_loading_plan := true }
    let st := add_message st ("Requesting plan for: " ++ prompt) .info
    let st := appLog st ("Requesting plan for: " ++ prompt)
    let st := { st with last_prompt := some prompt, analysis_result := none }
    let entry := ConversationEntry.prompt env.now prompt
    let st := { st with conversation := st.conversation ++ [entry] }
    { st with plan_receiver := true }

/-! ## The sequential execution controller as a transition system

The controller's task-list mutations, taken from app.rs, as a small-step
relation.  A step is one state change the controller performs on the task
list: installing a parsed plan (`handle_plan_response`), dispatching the
first pending task (`start`/`continue_sequential_execution` selecting
`first_pending_index` and `execute_selected` flipping it to `Running`), and
resolving the running task to `Complete` or `Blocked` exactly as the
corresponding `execute_selected` arm does, with the collaborator outcomes
that drive the resolution quantified.  Operator approval of a blocked task
is invoked from the display layer (`app.approve_current_blocked()` in
tui.rs); its implementation is not part of the orchestration sources, so the
`approve` step is modelled from the spec. -/

/-- The controller-visible state: the task list (in creation order) and the
selection index the resolution arms operate on. -/
structure CtrlState where
  tasks : List Task
  selected : Nat
deriving DecidableEq, Repr

/-- One controller step on the task list (app.rs; `approve` modelled from the
spec). -/
inductive Step (al : Allowlist) (ex : Executor) : CtrlState → CtrlState → Prop where
  /-- `handle_plan_response` on a successful parse: the parsed tasks are
  policy-evaluated, auto-completed notes removed, the selection reset. -/
  | install (s : CtrlState) (parsedTasks : List Task) :
      Step al ex s ⟨installPlan al parsedTasks, 0⟩
  /-- `start`/`continue_sequential_execution` select `first_pending_index`
  and `execute_selected` flips the `Ready`/`Proposed` task there to
  `Running`. -/
  | dispatch (s : CtrlState) (i : Nat) (t : Task)
      (hfind : firstPendingIndex s.tasks = some i)
      (hget : s.tasks.get? i = some t)
      (hst : t.status = .ready ∨ t.status = .proposed) :
      Step al ex s ⟨setStatus s.tasks i .running, i⟩
  /-- A running `Command` task whose collaborator run returned a result is
  marked `Complete` with the exit-code annotation. -/
  | completeCmd (s : CtrlState) (t : Task) (c : CommandTask) (r : ExecutionResult)
      (hget : s.tasks.get? s.selected = some t)
      (hrun : t.status = .running)
      (hdet : t.detail = .command c)
      (hexec : ∃ (oracle : CommandTask → Except String ExecutionResult) (w w' : World),
        run_command ex oracle c w = (w', .ok r)) :
      Step al ex s ⟨completeAt s.tasks s.selected ["exit " ++ toString r.status], s.selected⟩
  /-- A running `Command` task whose collaborator run failed is blocked with
  the failure folded into the reason. -/
  | blockCmd (s : CtrlState) (t : Task) (c : CommandTask) (msg : String)
      (hget : s.tasks.get? s.selected = some t)
      (hrun : t.status = .running)
      (hdet : t.detail = .command c)
      (hexec : ∃ (oracle : CommandTask → Except String ExecutionResult) (w w' : World),
        run_command ex oracle c w = (w', .error msg)) :
      Step al ex s
        ⟨setStatus s.tasks s.selected
          (.blocked ("execution failed: " ++ format_error_chain msg)), s.selected⟩
  /-- A running `FileEdit` task whose `apply_file_edit` succeeded is marked
  `Complete` with the written-path annotation. -/
  | completeEdit (s : CtrlState) (t : Task) (e : FileEditTask)
      (w w' : World) (outcome : FileEditOutcome)
      (hget : s.tasks.get? s.selected = some t)
      (hrun : t.status = .running)
      (hdet : t.detail = .fileEdit e)
      (hexec : apply_file_edit ex e w = (w', .ok outcome)) :
      Step al ex s
        ⟨completeAt s.tasks s.selected ["written " ++ pathToString outcome.path], s.selected⟩
  /-- A running `FileEdit` task whose `apply_file_edit` failed is blocked. -/
  | blockEdit (s : CtrlState) (t : Task) (e : FileEditTask)
      (w w' : World) (msg : String)
      (hget : s.tasks.get? s.selected = some t)
      (hrun : t.status = .running)
      (hdet : t.detail = .fileEdit e)
      (hexec : apply_file_edit ex e w = (w', .error msg)) :
      Step al ex s
        ⟨setStatus s.tasks s.selected
          (.blocked ("edit failed: " ++ format_error_chain msg)), s.selected⟩
  /-- A running `Note` task always completes immediately (no annotations). -/
  | completeNote (s : CtrlState) (t : Task) (d : String)
      (hget : s.tasks.get? s.selected = some t)
      (hrun : t.status = .running)
      (hdet : t.detail = .note d) :
      Step al ex s ⟨setStatus s.tasks s.selected .complete, s.selected⟩
  /-- Modelled from the spec: operator approval flips a `Blocked` task to
  `Ready` ("operator approval pops the front of the ApprovalQueue, flips that
  task to Ready"); the implementation (`approve_current_blocked`) lives
  outside the orchestration sources. -/
  | approve (s : CtrlState) (i : Nat) (t : Task) (reason : String)
      (hget : s.tasks.get? i = some t)
      (hst : t.status = .blocked reason) :
      Step al ex s ⟨setStatus s.tasks i .ready, s.selected⟩

/-- States reachable from the fresh application (empty task list) by
controller steps. -/
inductive Reachable (al : Allowlist) (ex : Executor) : CtrlState → Prop where
  | init : Reachable al ex ⟨[], 0⟩
  | step {s s' : CtrlState} : Reachable al ex s → Step al ex s s' → Reachable al ex s'

/-- At most one task of the list is `Running`. -/
def atMostOneRunning (tasks : List Task) : Prop :=
  ∀ i j ti tj, tasks.get? i = some ti → tasks.get? j = some tj →
    ti.status = .running → tj.status = .running → i = j

/-- Every task that precedes the first non-`Complete` task (in creation
order, i.e. list order) is `Complete`. -/
def completeBeforeFirstPending (tasks : List Task) : Prop :=
  ∀ j, firstPendingIndex tasks = some j →
    ∀ k, k < j → ∀ t, tasks.get? k = some t → t.status = .complete

/-! ## Supporting lemmas -/

/-- Reading back an in-place task mutation: position `i` is mapped through
`f`, every other position is untouched. -/
theorem modifyTask_get? (f : Task → Task) :
    ∀ (ts : List Task) (i j : Nat),
      (modifyTask f ts i).get? j = if i = j then (ts.get? j).map f else ts.get? j := by
  intro ts
  induction ts with
  | nil =>
      intro i j
      cases i <;> cases j <;> simp [modifyTask, List.get?]
  | cons hd tl ih =>
      intro i j
      cases i with
      | zero =>
          cases j with
          | zero => simp [modifyTask, List.get?]
          | succ m => simp [modifyTask, List.get?]
      | succ n =>
          cases j with
          | zero => simp [modifyTask, List.get?]
          | succ m =>
              simp only [modifyTask, List.get?]
              rw [ih n m]
              by_cases h : n = m
              · simp [h]
              · simp [h, fun hc => h (Nat.succ_injective hc)]

/-- Tasks before the index found by `first_pending_index` are `Complete`. -/
theorem fpi_prefix_complete :
    ∀ (ts : List Task) (j : Nat), firstPendingIndex ts = some j →
      ∀ k, k < j → ∀ t, ts.get? k = some t → t.status = .complete := by
  intro ts
  induction ts with
  | nil => intro j h; simp [firstPendingIndex] at h
  | cons hd tl ih =>
      intro j h k hk t hget
      by_cases hc : hd.status = .complete
      · simp only [firstPendingIndex, if_pos hc, Option.map_eq_some'] at h
        obtain ⟨j', hj', rfl⟩ := h
        cases k with
        | zero =>
            simp only [List.get?] at hget
            cases hget
            exact hc
        | succ m =>
            simp only [List.get?] at hget
            exact ih j' hj' m (by omega) t hget
      · simp only [firstPendingIndex, if_neg hc, Option.some.injEq] at h
        omega

/-- The task at the index found by `first_pending_index` exists and is not
`Complete`. -/
theorem fpi_get :
    ∀ (ts : List Task) (j : Nat), firstPendingIndex ts = some j →
      ∃ t, ts.get? j = some t ∧ ¬ t.status = .complete := by
  intro ts
  induction ts with
  | nil => intro j h; simp [firstPendingIndex] at h
  | cons hd tl ih =>
      intro j h
      by_cases hc : hd.status = .complete
      · simp only [firstPendingIndex, if_pos hc, Option.map_eq_some'] at h
        obtain ⟨j', hj', rfl⟩ := h
        obtain ⟨t, ht, hnc⟩ := ih j' hj'
        exact ⟨t, by simpa [List.get?] using ht, hnc⟩
      · simp only [firstPendingIndex, if_neg hc, Option.some.injEq] at h
        subst h
        exact ⟨hd, by simp [List.get?], hc⟩

/-- `first_pending_index` is unchanged by a task mutation that does not move
the mutated task into or out of `Complete`. -/
theorem fpi_modify_preserve (f : Task → Task) :
    ∀ (ts : List Task) (i : Nat),
      (∀ t, ts.get? i = some t → ((f t).status = .complete ↔ t.status = .complete)) →
      firstPendingIndex (modifyTask f ts i) = firstPendingIndex ts := by
  intro ts
  induction ts with
  | nil => intro i _; cases i <;> rfl
  | cons hd tl ih =>
      intro i hiff
      cases i with
      | zero =>
          have hiff0 := hiff hd (by simp [List.get?])
          by_cases hc : hd.status = .complete
          · have hfc : (f hd).status = .complete := hiff0.mpr hc
            simp [modifyTask, firstPendingIndex, hc, hfc]
          · have hfc : ¬ (f hd).status = .complete := fun h => hc (hiff0.mp h)
            simp [modifyTask, firstPendingIndex, hc, hfc]
      | succ n =>
          have hrec := ih n (fun t ht => hiff t (by simpa [List.get?] using ht))
          by_cases hc : hd.status = .complete
          · simp [modifyTask, firstPendingIndex, hc, hrec]
          · simp [modifyTask, firstPendingIndex, hc]

/-- The policy engine only ever approves with `Ready`. -/
theorem evaluate_ok_ready (al : Allowlist) (t : Task) (s : TaskStatus)
    (h : evaluate al t = .ok s) : s = .ready := by
  unfold evaluate at h
  cases hd : t.detail with
  | command c =>
      rw [hd] at h
      by_cases hm : al.command_regexes.any (fun re => re c.command) = true
      · simp [hm] at h; exact h.symm
      · simp [hm] at h
  | fileEdit e =>
      rw [hd] at h
      simp only [] at h
      cases hp : e.path with
      | none =>
          rw [hp] at h
          by_cases hs : al.max_edit_size_kb < e.new_text.utf8ByteSize / 1024
          · simp [hs] at h
          · simp [hs] at h; exact h.symm
      | some p =>
          rw [hp] at h
          by_cases hm : al.file_regexes.any (fun re => re p) = true
          · by_cases hs : al.max_edit_size_kb < e.new_text.utf8ByteSize / 1024
            · simp [hm, hs] at h
            · simp [hm, hs] at h; exact h.symm
          · simp [hm] at h
  | note d =>
      rw [hd] at h
      cases h
      rfl

/-- Every task of a freshly installed plan is `Ready` or `Blocked`. -/
theorem installPlan_status (al : Allowlist) (ts : List Task) (i : Nat) (t : Task)
    (h : (installPlan al ts).get? i = some t) :
    t.status = .ready ∨ ∃ r, t.status = .blocked r := by
  have hmem : t ∈ installPlan al ts := List.get?_mem h
  have hmem2 : t ∈ evaluateTasks al ts := List.mem_of_mem_filter hmem
  unfold evaluateTasks at hmem2
  obtain ⟨t0, _, ht⟩ := List.mem_map.mp hmem2
  cases hev : evaluate al t0 with
  | ok s =>
      rw [hev] at ht
      left
      rw [← ht]
      exact evaluate_ok_ready al t0 s hev
  | error e =>
      rw [hev] at ht
      right
      exact ⟨allowlistMessage e, by rw [← ht]⟩

/-- The inductive controller invariant: any `Running` task sits exactly at
`first_pending_index`. -/
def RunFirst (tasks : List Task) : Prop :=
  ∀ i t, tasks.get? i = some t → t.status = .running → firstPendingIndex tasks = some i

/-- Resolving the `Running` selected task (to anything not `Running`)
preserves `RunFirst` — afterwards no task is `Running` at all. -/
theorem runFirst_resolve {tasks : List Task} {sel : Nat} (f : Task → Task) (t0 : Task)
    (hget0 : tasks.get? sel = some t0) (hrun0 : t0.status = .running)
    (hf : ¬ (f t0).status = .running)
    (h : RunFirst tasks) : RunFirst (modifyTask f tasks sel) := by
  intro j t hget hrun
  rw [modifyTask_get? f tasks sel j] at hget
  by_cases hj : sel = j
  · subst hj
    rw [if_pos rfl, hget0] at hget
    have ht : f t0 = t := by simpa using hget
    rw [← ht] at hrun
    exact absurd hrun hf
  · rw [if_neg hj] at hget
    have h1 := h j t hget hrun
    have h2 := h sel t0 hget0 hrun0
    rw [h1] at h2
    exact absurd (Option.some.inj h2).symm hj

/-- Every controller step preserves `RunFirst`. -/
theorem step_runFirst {al : Allowlist} {ex : Executor} {s s' : CtrlState}
    (hs : Step al ex s s') (h : RunFirst s.tasks) : RunFirst s'.tasks := by
  cases hs with
  | install parsedTasks =>
      intro i t hget hrun
      rcases installPlan_status al parsedTasks i t hget with h1 | ⟨r, h1⟩ <;>
        rw [h1] at hrun <;> cases hrun
  | dispatch i t0 hfind hget0 hst =>
      intro j t hget hrun
      show firstPendingIndex (setStatus s.tasks i .running) = some j
      rw [setStatus, modifyTask_get? _ s.tasks i j] at hget
      by_cases hij : i = j
      · have hpres : firstPendingIndex
            (modifyTask (fun t => { t with status := TaskStatus.running }) s.tasks i)
            = firstPendingIndex s.tasks := by
          apply fpi_modify_preserve
          intro u hu
          rw [hget0] at hu
          cases hu
          rcases hst with h1 | h1 <;> simp [h1]
        rw [setStatus, hpres, hfind, hij]
      · rw [if_neg hij] at hget
        have h1 := h j t hget hrun
        rw [h1] at hfind
        exact absurd (Option.some.inj hfind).symm hij
  | completeCmd t0 c r hget0 hrun0 hdet hexec =>
      exact runFirst_resolve _ t0 hget0 hrun0 (by simp) h
  | blockCmd t0 c msg hget0 hrun0 hdet hexec =>
      exact runFirst_resolve _ t0 hget0 hrun0 (by simp) h
  | completeEdit t0 e w w' outcome hget0 hrun0 hdet hexec =>
      exact runFirst_resolve _ t0 hget0 hrun0 (by simp) h
  | blockEdit t0 e w w' msg hget0 hrun0 hdet hexec =>
      exact runFirst_resolve _ t0 hget0 hrun0 (by simp) h
  | completeNote t0 d hget0 hrun0 hdet =>
      exact runFirst_resolve _ t0 hget0 hrun0 (by simp) h
  | approve i t0 reason hget0 hst0 =>
      intro j t hget hrun
      show firstPendingIndex (setStatus s.tasks i .ready) = some j
      rw [setStatus, modifyTask_get? _ s.tasks i j] at hget
      by_cases hij : i = j
      · subst hij
        rw [if_pos rfl, hget0] at hget
        have ht : { t0 with status := TaskStatus.ready } = t := by simpa using hget
        rw [← ht] at hrun
        simp at hrun
      · rw [if_neg hij] at hget
        have h1 := h j t hget hrun
        have hpres : firstPendingIndex
            (modifyTask (fun t => { t with status := TaskStatus.ready }) s.tasks i)
            = firstPendingIndex s.tasks := by
          apply fpi_modify_preserve
          intro u hu
          rw [hget0] at hu
          cases hu
          simp [hst0]
        rw [setStatus, hpres, h1]

/-- `RunFirst` holds in every reachable controller state. -/
theorem reachable_runFirst {al : Allowlist} {ex : Executor} {s : CtrlState}
    (h : Reachable al ex s) : RunFirst s.tasks := by
  induction h with
  | init => intro i t hget _; simp [List.get?] at hget
  | step _ hstep ih => exact step_runFirst hstep ih

/-- `apply_file_edit` on a pathless edit fails before touching the world. -/
theorem apply_file_edit_pathless (ex : Executor) (e : FileEditTask) (w : World)
    (h : e.path = none) :
    apply_file_edit ex e w = (w, .error "file edit missing path") := by
  unfold apply_file_edit
  rw [h]

/-- No pathless `FileEdit` task is `Complete`. -/
def NoCompletePathlessEdit (tasks : List Task) : Prop :=
  ∀ i t e, tasks.get? i = some t → t.detail = .fileEdit e → e.path = none →
    ¬ t.status = .complete

/-- Every controller step preserves `NoCompletePathlessEdit`: the only step
that completes a `FileEdit` requires a successful `apply_file_edit`, which a
missing path makes impossible. -/
theorem step_noCompletePathless {al : Allowlist} {ex : Executor} {s s' : CtrlState}
    (hs : Step al ex s s') (h : NoCompletePathlessEdit s.tasks) :
    NoCompletePathlessEdit s'.tasks := by
  cases hs with
  | install parsedTasks =>
      intro i t e hget hdet hpath
      rcases installPlan_status al parsedTasks i t hget with h1 | ⟨r, h1⟩ <;> simp [h1]
  | dispatch i t0 hfind hget0 hst =>
      intro j t e hget hdet hpath
      rw [setStatus, modifyTask_get? _ s.tasks i j] at hget
      by_cases hij : i = j
      · subst hij
        rw [if_pos rfl, hget0] at hget
        simp only [Option.map_some', Option.some.injEq] at hget
        subst hget
        simp
      · rw [if_neg hij] at hget
        exact h j t e hget hdet hpath
  | completeCmd t0 c r hget0 hrun0 hdet0 hexec =>
      intro j t e hget hdet hpath
      rw [completeAt, modifyTask_get? _ s.tasks s.selected j] at hget
      by_cases hij : s.selected = j
      · subst hij
        rw [if_pos rfl, hget0] at hget
        simp only [Option.map_some', Option.some.injEq] at hget
        subst hget
        simp only [] at hdet
        rw [hdet0] at hdet
        exact absurd hdet (by simp)
      · rw [if_neg hij] at hget
        exact h j t e hget hdet hpath
  | blockCmd t0 c msg hget0 hrun0 hdet0 hexec =>
      intro j t e hget hdet hpath
      rw [setStatus, modifyTask_get? _ s.tasks s.selected j] at hget
      by_cases hij : s.selected = j
      · subst hij
        rw [if_pos rfl, hget0] at hget
        simp only [Option.map_some', Option.some.injEq] at hget
        subst hget
        simp
      · rw [if_neg hij] at hget
        exact h j t e hget hdet hpath
  | completeEdit t0 e0 w w' outcome hget0 hrun0 hdet0 hexec =>
      intro j t e hget hdet hpath
      rw [completeAt, modifyTask_get? _ s.tasks s.selected j] at hget
      by_cases hij : s.selected = j
      · subst hij
        rw [if_pos rfl, hget0] at hget
        simp only [Option.map_some', Option.some.injEq] at hget
        subst hget
        simp only [] at hdet
        rw [hdet0] at hdet
        injection hdet with he
        subst he
        rw [apply_file_edit_pathless ex e0 w hpath] at hexec
        simp at hexec
      · rw [if_neg hij] at hget
        exact h j t e hget hdet hpath
  | blockEdit t0 e0 w w' msg hget0 hrun0 hdet0 hexec =>
      intro j t e hget hdet hpath
      rw [setStatus, modifyTask_get? _ s.tasks s.selected j] at hget
      by_cases hij : s.selected = j
      · subst hij
        rw [if_pos rfl, hget0] at hget
        simp only [Option.map_some', Option.some.injEq] at hget
        subst hget
        simp
      · rw [if_neg hij] at hget
        exact h j t e hget hdet hpath
  | completeNote t0 d hget0 hrun0 hdet0 =>
      intro j t e hget hdet hpath
      rw [setStatus, modifyTask_get? _ s.tasks s.selected j] at hget
      by_cases hij : s.selected = j
      · subst hij
        rw [if_pos rfl, hget0] at hget
        simp only [Option.map_some', Option.some.injEq] at hget
        subst hget
        simp only [] at hdet
        rw [hdet0] at hdet
        exact absurd hdet (by simp)
      · rw [if_neg hij] at hget
        exact h j t e hget hdet hpath
  | approve i t0 reason hget0 hst0 =>
      intro j t e hget hdet hpath
      rw [setStatus, modifyTask_get? _ s.tasks i j] at hget
      by_cases hij : i = j
      · subst hij
        rw [if_pos rfl, hget0] at hget
        simp only [Option.map_some', Option.some.injEq] at hget
        subst hget
        simp
      · rw [if_neg hij] at hget
        exact h j t e hget hdet hpath

/-- `NoCompletePathlessEdit` holds in every reachable controller state. -/
theorem reachable_noCompletePathless {al : Allowlist} {ex : Executor} {s : CtrlState}
    (h : Reachable al ex s) : NoCompletePathlessEdit s.tasks := by
  induction h with
  | init => intro i t e hget _ _; simp [List.get?] at hget
  | step _ hstep ih => exact step_noCompletePathless hstep ih

/-- The running total of a greedy walk never exceeds the budget it started
under. -/
theorem truncTake_sum (available : Nat) :
    ∀ (l : List ConversationEntry) (t : Nat), t ≤ available →
      t + ((truncTake available l t).map entry_tokens).sum ≤ available := by
  intro l
  induction l with
  | nil => intro t ht; simpa [truncTake]
  | cons e rest ih =>
      intro t ht
      by_cases hfit : t + entry_tokens e ≤ available
      · simp only [truncTake, if_pos hfit, List.map_cons, List.sum_cons]
        have := ih (t + entry_tokens e) hfit
        omega
      · simp only [truncTake, if_neg hfit, List.map_nil, List.sum_nil]
        omega

/-- A list whose total already fits the budget is kept whole by the greedy
walk. -/
theorem truncTake_all (available : Nat) :
    ∀ (l : List ConversationEntry) (t : Nat),
      t + (l.map entry_tokens).sum ≤ available → truncTake available l t = l := by
  intro l
  induction l with
  | nil => intro t _; rfl
  | cons e rest ih =>
      intro t hsum
      simp only [List.map_cons, List.sum_cons] at hsum
      have hfit : t + entry_tokens e ≤ available := by omega
      simp only [truncTake, if_pos hfit]
      rw [ih (t + entry_tokens e) (by omega)]

/-! ## The claims -/

/-- C1: for every allowlist configuration and every `Command` task, `evaluate`
returns `Ready` when the task's command string matches at least one configured
command pattern, and the `CommandDenied` error otherwise. -/
theorem C1_command_allowlist_decision (al : Allowlist) (t : Task) (c : CommandTask)
    (hdet : t.detail = .command c) :
    ((∃ re ∈ al.command_regexes, re c.command = true) → evaluate al t = .ok .ready)
    ∧ ((∀ re ∈ al.command_regexes, re c.command = false) →
        evaluate al t = .error (.commandDenied c.command)) := by
  constructor
  · intro hex
    have hany : al.command_regexes.any (fun re => re c.command) = true :=
      List.any_eq_true.mpr (by simpa using hex)
    unfold evaluate
    rw [hdet]
    simp [hany]
  · intro hall
    have hany : al.command_regexes.any (fun re => re c.command) = false := by
      rw [List.any_eq_false]
      intro re hre
      simp [hall re hre]
    unfold evaluate
    rw [hdet]
    simp [hany]

/-- Witness for C1: a concrete allowlist with an `^ls`-style matcher approves
`ls -la /var` and denies `rm -rf /tmp/foo`. -/
theorem C1_command_allowlist_decision_witness :
    evaluate ⟨[fun s => s.data.take 2 == ['l', 's']], [], 64⟩
        (Task.new "Inspect disk usage" (.command ⟨"/bin/bash", "ls -la /var", none, false⟩))
      = .ok .ready
    ∧ evaluate ⟨[fun s => s.data.take 2 == ['l', 's']], [], 64⟩
        (Task.new "Remove" (.command ⟨"/bin/bash", "rm -rf /tmp/foo", none, false⟩))
      = .error (.commandDenied "rm -rf /tmp/foo") :=
  ⟨(C1_command_allowlist_decision ⟨[fun s => s.data.take 2 == ['l', 's']], [], 64⟩
      (Task.new "Inspect disk usage" (.command ⟨"/bin/bash", "ls -la /var", none, false⟩))
      ⟨"/bin/bash", "ls -la /var", none, false⟩ rfl).1
      ⟨fun s => s.data.take 2 == ['l', 's'], by simp, by decide⟩,
   (C1_command_allowlist_decision ⟨[fun s => s.data.take 2 == ['l', 's']], [], 64⟩
      (Task.new "Remove" (.command ⟨"/bin/bash", "rm -rf /tmp/foo", none, false⟩))
      ⟨"/bin/bash", "rm -rf /tmp/foo", none, false⟩ rfl).2
      (by intro re hre; simp at hre; subst hre; decide)⟩

set_option maxRecDepth 40000 in
/-- C2 fails as stated: a 1025-byte edit against a zero-KiB ceiling whose path
matches no file pattern is denied with `FileDenied`, not `EditTooLarge` — the
path check runs first, so the `EditTooLarge` verdict is NOT independent of the
path-matching outcome. -/
theorem C2_counterexample :
    (⟨[], [], 0⟩ : Allowlist).max_edit_size_kb
        < (String.mk (List.replicate 1025 'a')).utf8ByteSize / 1024
    ∧ evaluate ⟨[], [], 0⟩
        (Task.new "edit" (.fileEdit ⟨some "/x", String.mk (List.replicate 1025 'a'), none⟩))
      = .error (.fileDenied "/x") := by
  constructor
  · decide
  · rfl

/-- C2 amended: when the edit's path is absent or matches a configured file
pattern, the engine denies with `EditTooLarge` exactly when the content size
S KiB exceeds the ceiling L, and permits the boundary S = L; when a path is
present and unmatched, `FileDenied` is returned regardless of size. -/
theorem C2_edit_size_ceiling (al : Allowlist) (t : Task) (e : FileEditTask)
    (hdet : t.detail = .fileEdit e)
    (hpath : e.path = none
      ∨ ∃ p, e.path = some p ∧ al.file_regexes.any (fun re => re p) = true) :
    (evaluate al t = .error (.editTooLarge (e.path.getD "<buffer>") al.max_edit_size_kb)
      ↔ al.max_edit_size_kb < e.new_text.utf8ByteSize / 1024)
    ∧ (e.new_text.utf8ByteSize / 1024 ≤ al.max_edit_size_kb → evaluate al t = .ok .ready) := by
  rcases hpath with hnone | ⟨p, hp, hm⟩
  · by_cases hs : al.max_edit_size_kb < e.new_text.utf8ByteSize / 1024
    · refine ⟨by simp [evaluate, hdet, hnone, hs], fun hle => absurd hs (by omega)⟩
    · refine ⟨by simp [evaluate, hdet, hnone, hs], fun _ => by simp [evaluate, hdet, hnone, hs]⟩
  · by_cases hs : al.max_edit_size_kb < e.new_text.utf8ByteSize / 1024
    · refine ⟨by simp [evaluate, hdet, hp, hm, hs], fun hle => absurd hs (by omega)⟩
    · refine ⟨by simp [evaluate, hdet, hp, hm, hs], fun _ => by simp [evaluate, hdet, hp, hm, hs]⟩

set_option maxRecDepth 40000 in
/-- Witness for the amended C2: a pathless empty edit under a 64 KiB ceiling
is permitted (boundary direction), and a pathless 1025-byte edit under a
0 KiB ceiling is denied `EditTooLarge`. -/
theorem C2_edit_size_ceiling_witness :
    evaluate ⟨[], [], 64⟩ (Task.new "w" (.fileEdit ⟨none, "", none⟩)) = .ok .ready
    ∧ evaluate ⟨[], [], 0⟩
        (Task.new "big" (.fileEdit ⟨none, String.mk (List.replicate 1025 'a'), none⟩))
      = .error (.editTooLarge "<buffer>" 0) :=
  ⟨(C2_edit_size_ceiling ⟨[], [], 64⟩ (Task.new "w" (.fileEdit ⟨none, "", none⟩))
      ⟨none, "", none⟩ rfl (Or.inl rfl)).2 (by decide),
   (C2_edit_size_ceiling ⟨[], [], 0⟩
      (Task.new "big" (.fileEdit ⟨none, String.mk (List.replicate 1025 'a'), none⟩))
      ⟨none, String.mk (List.replicate 1025 'a'), none⟩ rfl (Or.inl rfl)).1.mpr (by decide)⟩

/-- C7: `truncate_history` is idempotent — applied to its own output with the
same budget it returns that output unchanged. -/
theorem C7_truncate_history_idempotent (history : List ConversationEntry)
    (max_tokens system_prompt_tokens current_prompt_tokens : Nat) :
    truncate_history
        (truncate_history history max_tokens system_prompt_tokens current_prompt_tokens)
        max_tokens system_prompt_tokens current_prompt_tokens
      = truncate_history history max_tokens system_prompt_tokens current_prompt_tokens := by
  by_cases ha : max_tokens - system_prompt_tokens - current_prompt_tokens - 100 = 0
  · simp [truncate_history, ha]
  · simp only [truncate_history, if_neg ha]
    rw [List.reverse_reverse]
    have hsum := truncTake_sum (max_tokens - system_prompt_tokens - current_prompt_tokens - 100)
      history.reverse 0 (Nat.zero_le _)
    rw [truncTake_all _ _ 0 (by omega)]

/-- C3: in every state reachable by the controller's operations (plan
install, dispatch/execute, complete, block — plus the spec-modelled operator
approval), at most one task has status `Running`, and every task preceding
the first non-`Complete` task in creation order is `Complete`. -/
theorem C3_controller_invariant (al : Allowlist) (ex : Executor) (s : CtrlState)
    (h : Reachable al ex s) :
    atMostOneRunning s.tasks ∧ completeBeforeFirstPending s.tasks := by
  constructor
  · intro i j ti tj hi hj hri hrj
    have h1 := reachable_runFirst h i ti hi hri
    have h2 := reachable_runFirst h j tj hj hrj
    rw [h1] at h2
    exact Option.some.inj h2
  · intro j hj k hk t ht
    exact fpi_prefix_complete s.tasks j hj k hk t ht

/-- Demo allowlist for the C3 witness (a matcher that accepts anything). -/
def c3Allowlist : Allowlist := ⟨[fun _ => true], [], 64⟩

/-- Demo parsed plan for the C3 witness. -/
def c3Parsed : List Task := [Task.new "run ls" (.command ⟨"/bin/bash", "ls", none, false⟩)]

/-- Demo reachable state for the C3 witness: install the one-command plan,
then dispatch it (so a task is actually `Running` there). -/
def c3State : CtrlState := ⟨setStatus (installPlan c3Allowlist c3Parsed) 0 .running, 0⟩

/-- Witness for C3 at a concrete reachable state holding a `Running` task. -/
theorem C3_controller_invariant_witness :
    atMostOneRunning c3State.tasks ∧ completeBeforeFirstPending c3State.tasks :=
  C3_controller_invariant c3Allowlist ⟨false⟩ c3State
    (Reachable.step (Reachable.step Reachable.init (Step.install ⟨[], 0⟩ c3Parsed))
      (Step.dispatch ⟨installPlan c3Allowlist c3Parsed, 0⟩ 0
        ⟨"run ls", .command ⟨"/bin/bash", "ls", none, false⟩, .ready, []⟩
        rfl rfl (Or.inl rfl)))

/-- C4: a failed plan request — transport/protocol failure surfacing as a
`failed` poll, a disconnected channel, or a response whose parse fails —
leaves the installed plan untouched: the task list (hence every task status)
and the summary are exactly what they were.  Each handler is a total function
returning the next state: no failure path terminates the process. -/
theorem C4_plan_failure_preserves_plan (env : Externals) (fuel : Nat)
    (st : AppState) (w : World) :
    (∀ msg,
      (poll_plan_response env fuel (.failed msg) st w).1.tasks = st.tasks
      ∧ (poll_plan_response env fuel (.failed msg) st w).1.summary = st.summary)
    ∧ ((poll_plan_response env fuel .disconnected st w).1.tasks = st.tasks
      ∧ (poll_plan_response env fuel .disconnected st w).1.summary = st.summary)
    ∧ (∀ raw decoded err,
        decoded.bind (fun lp => parse_plan_items st.config.default_shell lp) = .error err →
        (poll_plan_response env fuel (.success raw decoded) st w).1.tasks = st.tasks
        ∧ (poll_plan_response env fuel (.success raw decoded) st w).1.summary = st.summary) := by
  by_cases hr : st.plan_receiver = false
  · exact ⟨fun msg => by simp [poll_plan_response, hr],
      by simp [poll_plan_response, hr],
      fun raw decoded err _ => by simp [poll_plan_response, hr]⟩
  · refine ⟨fun msg => ?_, ?_, fun raw decoded err herr => ?_⟩
    · simp [poll_plan_response, hr, add_message, appLog]
    · simp [poll_plan_response, hr, appLog]
    · simp only [poll_plan_response, if_neg hr, handle_plan_response]
      rw [herr]
      simp [add_message, appLog]

/-- Demo configuration shared by the concrete application states below. -/
def demoConfig : AppConfig := ⟨"/bin/bash", 500⟩

/-- Demo externals: an offline collaborator and a fixed clock. -/
def demoEnv : Externals := ⟨fun _ => .error "offline", .error "offline", "1970-01-01T00:00:00Z"⟩

/-- Concrete application state for the C4 witness: a one-task plan installed,
a request in flight. -/
def c4State : AppState :=
  ⟨[⟨"inspect", .command ⟨"/bin/bash", "ls", none, false⟩, .ready, []⟩], 0, "", [],
    some "a summary", [], none, true, none, [], demoConfig, ⟨[], [], 64⟩, ⟨false⟩, [], [], true⟩

/-- Witness for C4 at a concrete in-flight state, for all three failure
shapes. -/
theorem C4_plan_failure_preserves_plan_witness :
    (poll_plan_response demoEnv 5 (.failed "connection reset") c4State ⟨⟨[], []⟩, []⟩).1.tasks
        = c4State.tasks
    ∧ (poll_plan_response demoEnv 5 (.failed "connection reset") c4State ⟨⟨[], []⟩, []⟩).1.summary
        = c4State.summary
    ∧ (poll_plan_response demoEnv 5 .disconnected c4State ⟨⟨[], []⟩, []⟩).1.tasks
        = c4State.tasks
    ∧ (poll_plan_response demoEnv 5 (.success "gibberish" (.error "bad json"))
          c4State ⟨⟨[], []⟩, []⟩).1.tasks
        = c4State.tasks :=
  ⟨((C4_plan_failure_preserves_plan demoEnv 5 c4State ⟨⟨[], []⟩, []⟩).1 "connection reset").1,
   ((C4_plan_failure_preserves_plan demoEnv 5 c4State ⟨⟨[], []⟩, []⟩).1 "connection reset").2,
   (C4_plan_failure_preserves_plan demoEnv 5 c4State ⟨⟨[], []⟩, []⟩).2.1.1,
   ((C4_plan_failure_preserves_plan demoEnv 5 c4State ⟨⟨[], []⟩, []⟩).2.2 "gibberish"
      (.error "bad json") "bad json" rfl).1⟩

/-- C5 fails as stated: in dry mode `apply_file_edit` still creates the
target's parent directories (the `create_dir_all` call precedes the dry-run
check), so a dry file edit is NOT free of real file-system side effects —
here the world gains the directory `a`. -/
theorem C5_counterexample :
    (apply_file_edit ⟨true⟩ ⟨some "a/b.txt", "x", none⟩ ⟨⟨[], []⟩, []⟩).2
        = .ok ⟨["a", "b.txt"], none⟩
    ∧ ¬ (apply_file_edit ⟨true⟩ ⟨some "a/b.txt", "x", none⟩ ⟨⟨[], []⟩, []⟩).1
        = (⟨⟨[], []⟩, []⟩ : World) := by
  exact ⟨rfl, by decide⟩

/-- C5 amended: in dry mode, running a command returns the synthetic
zero-status result with no effect on the world (no spawn, no file-system
change), and applying a file edit returns success with no backup path,
writes no file and spawns nothing — but it does create the parent
directories of the target path. -/
theorem C5_dry_run_effects :
    (∀ (oracle : CommandTask → Except String ExecutionResult) (c : CommandTask) (w : World),
        run_command ⟨true⟩ oracle c w
          = (w, .ok ⟨0, "(dry-run) command would execute: " ++ c.command, ""⟩))
    ∧ (∀ (e : FileEditTask) (p : String) (w : World), e.path = some p →
        apply_file_edit ⟨true⟩ e w
          = ({ w with fs := createDirAll w.fs (pathComponents p).dropLast },
             .ok ⟨pathComponents p, none⟩))
    ∧ (∀ (fs : FileSystem) (d : List String), (createDirAll fs d).files = fs.files) := by
  refine ⟨fun oracle c w => rfl, fun e p w hp => ?_, fun fs d => rfl⟩
  simp [apply_file_edit, hp]

/-- Witness for the amended C5 at a concrete dry edit. -/
theorem C5_dry_run_effects_witness :
    apply_file_edit ⟨true⟩ ⟨some "etc/hosts", "data", none⟩ ⟨⟨[], []⟩, []⟩
      = ({ (⟨⟨[], []⟩, []⟩ : World) with
            fs := createDirAll ⟨[], []⟩ (pathComponents "etc/hosts").dropLast },
         .ok ⟨pathComponents "etc/hosts", none⟩) :=
  C5_dry_run_effects.2.1 ⟨some "etc/hosts", "data", none⟩ "etc/hosts" ⟨⟨[], []⟩, []⟩ rfl

/-- C9: submitting a non-empty prompt while a plan request is in flight (the
receiver is held or the loading flag is set) spawns no worker and performs no
new request — the receiver presence, loading flag, tasks, conversation log,
stored prompt and input are unchanged — and appends the explicit
already-running warning to the message stream. -/
theorem C9_single_outstanding_request (env : Externals) (st : AppState)
    (hne : ¬ rustTrim st.input = "")
    (hin : st.plan_receiver = true ∨ st.is_loading_plan = true) :
    (submit_prompt env st).plan_receiver = st.plan_receiver
    ∧ (submit_prompt env st).is_loading_plan = st.is_loading_plan
    ∧ (submit_prompt env st).tasks = st.tasks
    ∧ (submit_prompt env st).conversation = st.conversation
    ∧ (submit_prompt env st).last_prompt = st.last_prompt
    ∧ (submit_prompt env st).input = st.input
    ∧ (submit_prompt env st).messages
        = st.messages
          ++ [("A plan is already running. Please wait for it to finish.",
               MessageType.warning)] := by
  have hcond : (st.plan_receiver || st.is_loading_plan) = true := by
    rcases hin with h | h <;> simp [h]
  simp [submit_prompt, hne, hcond, add_message, appLog]

/-- Concrete application state for the C9 witness: a prompt typed while a
request is in flight. -/
def c9State : AppState :=
  ⟨[], 0, "check the disk", [], none, [], none, false, none, [], demoConfig,
    ⟨[], [], 64⟩, ⟨false⟩, [], [], true⟩

/-- Witness for C9 at the concrete in-flight state. -/
theorem C9_single_outstanding_request_witness :
    (submit_prompt demoEnv c9State).plan_receiver = c9State.plan_receiver
    ∧ (submit_prompt demoEnv c9State).is_loading_plan = c9State.is_loading_plan
    ∧ (submit_prompt demoEnv c9State).tasks = c9State.tasks
    ∧ (submit_prompt demoEnv c9State).conversation = c9State.conversation
    ∧ (submit_prompt demoEnv c9State).last_prompt = c9State.last_prompt
    ∧ (submit_prompt demoEnv c9State).input = c9State.input
    ∧ (submit_prompt demoEnv c9State).messages
        = c9State.messages
          ++ [("A plan is already running. Please wait for it to finish.",
               MessageType.warning)] :=
  C9_single_outstanding_request demoEnv c9State (by decide) (Or.inl rfl)

/-- C6 fails as stated: a decoded plan item of kind "command" whose command
string is PRESENT BUT EMPTY is accepted — the parser only errors when the
field is absent, so the empty string yields a command task with the empty
command rather than a parse error. -/
theorem C6_counterexample :
    parse_plan_items "/bin/bash"
        ⟨some "s",
          [⟨none, some "command", some "d", some "", none, none, none, none, none, none⟩]⟩
      = .ok ⟨some "s", [⟨"d", .command ⟨"/bin/bash", "", none, false⟩, .proposed, []⟩]⟩ := by
  rfl

/-- C6 amended: `parse_plan` fails whenever the decoded plan contains a
command item whose command field is ABSENT; an item with a present (possibly
empty) command string is accepted and yields the corresponding command
task. -/
theorem C6_command_field_required :
    (∀ (shell : String) (lp : LlmPlan),
        (∃ it ∈ lp.plan, it.kind = some "command" ∧ it.command = none) →
        ∃ msg, parse_plan_items shell lp = .error msg)
    ∧ (∀ (shell : String) (it : LlmPlanItem) (c : String),
        it.kind = some "command" → it.command = some c →
        itemToTask shell it
          = .ok (Task.new (it.description.getD "Command task")
              (.command ⟨it.shell.getD shell, c, it.cwd, it.requires_root.getD false⟩))) := by
  constructor
  · intro shell lp hex
    have hlist : ∀ (l : List LlmPlanItem),
        (∃ it ∈ l, it.kind = some "command" ∧ it.command = none) →
        ∃ msg, itemsToTasks shell l = .error msg := by
      intro l
      induction l with
      | nil => rintro ⟨it, hmem, _⟩; cases hmem
      | cons hd tl ih =>
          rintro ⟨it, hmem, hk, hc⟩
          rcases List.mem_cons.mp hmem with heq | htl
          · subst heq
            refine ⟨"command task missing \x27command\x27 field", ?_⟩
            have hbad : itemToTask shell it
                = Except.error "command task missing \x27command\x27 field" := by
              simp [itemToTask, hk, hc]
            simp only [itemsToTasks, hbad]
            rfl
          · cases hhd : itemToTask shell hd with
            | error e => exact ⟨e, by simp only [itemsToTasks, hhd]; rfl⟩
            | ok t0 =>
                obtain ⟨msg, hmsg⟩ := ih ⟨it, htl, hk, hc⟩
                exact ⟨msg, by simp only [itemsToTasks, hhd, hmsg]; rfl⟩
    obtain ⟨msg, hmsg⟩ := hlist lp.plan hex
    exact ⟨msg, by simp [parse_plan_items, hmsg]⟩
  · intro shell it c hk hc
    simp [itemToTask, hk, hc]

/-- Witness for the amended C6: an absent command field makes the whole parse
fail, and an empty-string command is accepted. -/
theorem C6_command_field_required_witness :
    (parse_plan_items "/bin/bash"
        ⟨none, [⟨none, some "command", some "d", none, none, none, none, none, none, none⟩]⟩).isOk
      = false
    ∧ itemToTask "/bin/bash"
        ⟨none, some "command", some "d", some "", none, none, none, none, none, none⟩
      = .ok (Task.new "d" (.command ⟨"/bin/bash", "", none, false⟩)) := by
  constructor
  · obtain ⟨msg, hmsg⟩ := C6_command_field_required.1 "/bin/bash"
      ⟨none, [⟨none, some "command", some "d", none, none, none, none, none, none, none⟩]⟩
      ⟨⟨none, some "command", some "d", none, none, none, none, none, none, none⟩,
        by simp, rfl, rfl⟩
    rw [hmsg]
    rfl
  · exact C6_command_field_required.2 "/bin/bash"
      ⟨none, some "command", some "d", some "", none, none, none, none, none, none⟩ "" rfl rfl

/-- C8 fails as stated: a note item with no real description and note body
"Note\nbody continues" (a non-empty body whose first line is literally
"Note") is synthesized the title "Note" — the parse result IS literally
titled "Note" although the note body is non-empty. -/
theorem C8_counterexample :
    parse_plan_items "/bin/bash"
        ⟨some "s",
          [⟨none, some "note", none, none, none, none, none, none, none,
            some "Note\nbody continues"⟩]⟩
      = .ok ⟨some "s", [⟨"Note", .note "Note\nbody continues", .proposed, []⟩]⟩
    ∧ ¬ ("Note\nbody continues" : String) = "" := by
  exact ⟨rfl, by decide⟩

/-- Characters of an appended string (used to count lengths below). -/
theorem string_append_data (a b : String) : (a ++ b).data = a.data ++ b.data := rfl

/-- C8 amended: for a plan item that becomes a `Note` task with no real
description supplied (description missing, empty, or literally "Note") and a
non-empty note body, the parser synthesizes the description from the first
line of the note body, truncated to 60 with an ellipsis appended when longer
(`synthNoteDescription`); the resulting title is literally "Note" exactly
when the first line of the note body is itself "Note". -/
theorem C8_note_description_synthesis (shell : String) (it : LlmPlanItem) (d : String)
    (hk1 : ¬ it.kind.getD "note" = "command") (hk2 : ¬ it.kind.getD "note" = "file_edit")
    (hdetails : it.details = some d) (hne : ¬ d = "")
    (hdesc : it.description = none ∨ it.description = some "" ∨ it.description = some "Note") :
    itemToTask shell it = .ok (Task.new (synthNoteDescription d) (.note d))
    ∧ (synthNoteDescription d = "Note" ↔ rustFirstLine d = some "Note") := by
  constructor
  · unfold itemToTask
    split
    · next heq => exact absurd heq hk1
    · next heq => exact absurd heq hk2
    · rcases hdesc with h | h | h <;> rw [hdetails, h] <;> rfl
  · constructor
    · intro hs
      cases hfl : rustFirstLine d with
      | none =>
          unfold rustFirstLine at hfl
          rw [if_neg hne] at hfl
          rcases hp : firstLineChars d.data with ⟨l, found⟩
          rw [hp] at hfl
          cases found <;> simp at hfl
      | some l =>
          have heq : synthNoteDescription d
              = if 60 < l.length then takeChars l 60 ++ "…" else l := by
            unfold synthNoteDescription
            rw [hfl]
          rw [heq] at hs
          by_cases hlen : 60 < l.length
          · rw [if_pos hlen] at hs
            have htk : (takeChars l 60).data.length = 60 := by
              simp only [takeChars]
              rw [List.length_take]
              have hld : l.data.length = l.length := rfl
              omega
            have h1 : (takeChars l 60 ++ "…").length = 61 := by
              show ((takeChars l 60 ++ "…").data).length = 61
              rw [string_append_data, List.length_append, htk]
              rfl
            rw [hs] at h1
            exact absurd h1 (by decide)
          · rw [if_neg hlen] at hs
            rw [hs]
    · intro hfl
      unfold synthNoteDescription
      rw [hfl]
      rfl

/-- Witness for the amended C8 at a concrete note item: the title is the
first line of the body and is not "Note". -/
theorem C8_note_description_synthesis_witness :
    itemToTask "/bin/bash"
        ⟨none, some "note", none, none, none, none, none, none, none,
          some "check the disk\nthen reboot"⟩
      = .ok (Task.new (synthNoteDescription "check the disk\nthen reboot")
          (.note "check the disk\nthen reboot"))
    ∧ (synthNoteDescription "check the disk\nthen reboot" = "Note"
        ↔ rustFirstLine "check the disk\nthen reboot" = some "Note") :=
  C8_note_description_synthesis "/bin/bash"
    ⟨none, some "note", none, none, none, none, none, none, none,
      some "check the disk\nthen reboot"⟩
    "check the disk\nthen reboot" (by decide) (by decide) rfl (by decide) (Or.inl rfl)

/-- C10: a pathless `FileEdit` task passes the policy engine whenever its
size fits the ceiling (only the size is checked without a path), but
executing it always fails: `apply_file_edit` returns the "file edit missing
path" error without touching the world, `execute_selected` marks the task
`Blocked` with that failure as the reason, and in no reachable controller
state (operator approval included) is a pathless `FileEdit` task
`Complete`. -/
theorem C10_pathless_edit_never_completes :
    (∀ (al : Allowlist) (t : Task) (e : FileEditTask),
        t.detail = .fileEdit e → e.path = none →
        e.new_text.utf8ByteSize / 1024 ≤ al.max_edit_size_kb →
        evaluate al t = .ok .ready)
    ∧ (∀ (ex : Executor) (e : FileEditTask) (w : World), e.path = none →
        apply_file_edit ex e w = (w, .error "file edit missing path"))
    ∧ (∀ (env : Externals) (fuel : Nat) (st : AppState) (w : World) (t : Task)
          (e : FileEditTask),
        st.tasks.get? st.selected = some t → t.status = .ready → t.detail = .fileEdit e →
        e.path = none →
        (execute_selected env (fuel + 1) st w).1.tasks.get? st.selected
          = some { t with status := .blocked "edit failed: file edit missing path" })
    ∧ (∀ (al : Allowlist) (ex : Executor) (s : CtrlState), Reachable al ex s →
        ∀ i t e, s.tasks.get? i = some t → t.detail = .fileEdit e → e.path = none →
          ¬ t.status = .complete) := by
  refine ⟨?_, ?_, ?_, ?_⟩
  · intro al t e hdet hp hsize
    have hnl : ¬ al.max_edit_size_kb < e.new_text.utf8ByteSize / 1024 := by omega
    simp [evaluate, hdet, hp, hnl]
  · intro ex e w hp
    exact apply_file_edit_pathless ex e w hp
  · intro env fuel st w t e hget hst hdet hp
    have hedit := apply_file_edit_pathless st.executor e w hp
    have hfmt : format_error_chain "file edit missing path" = "file edit missing path" := rfl
    simp only [execute_selected, hget, hst, hdet, hedit, hfmt, set_blocked, appLog,
      add_message, true_or, if_pos]
    rw [setStatus, setStatus, modifyTask_get?, modifyTask_get?, if_pos rfl, if_pos rfl, hget]
    simp only [Option.map_some', Option.some.injEq, Task.mk.injEq]
    exact ⟨trivial, hdet, by decide, trivial⟩
  · intro al ex s hreach i t e hget hdet hp
    exact reachable_noCompletePathless hreach i t e hget hdet hp

/-- Demo pathless edit for the C10 witness. -/
def c10Edit : FileEditTask := ⟨none, "data", none⟩

/-- Demo pathless-edit task for the C10 witness. -/
def c10Task : Task := Task.new "apply edit" (.fileEdit c10Edit)

/-- Demo allowlist for the C10 witness. -/
def c10Allowlist : Allowlist := ⟨[], [], 64⟩

/-- Reachable controller state for the C10 witness: the pathless edit
installed (policy-approved `Ready`). -/
def c10State : CtrlState := ⟨installPlan c10Allowlist [c10Task], 0⟩

/-- Concrete application state for the C10 witness: the pathless edit
selected and `Ready`. -/
def c10App : AppState :=
  ⟨[⟨"apply edit", .fileEdit c10Edit, .ready, []⟩], 0, "", [], none, [], none, false, none,
    [], demoConfig, c10Allowlist, ⟨false⟩, [], [], false⟩

/-- Witness for C10 at the concrete pathless edit. -/
theorem C10_pathless_edit_never_completes_witness :
    evaluate c10Allowlist c10Task = .ok .ready
    ∧ apply_file_edit ⟨false⟩ c10Edit ⟨⟨[], []⟩, []⟩
        = (⟨⟨[], []⟩, []⟩, .error "file edit missing path")
    ∧ (execute_selected demoEnv 1 c10App ⟨⟨[], []⟩, []⟩).1.tasks.get? 0
        = some ⟨"apply edit", .fileEdit c10Edit,
            .blocked "edit failed: file edit missing path", []⟩
    ∧ ¬ (⟨"apply edit", .fileEdit c10Edit, .ready, []⟩ : Task).status = .complete := by
  refine ⟨C10_pathless_edit_never_completes.1 c10Allowlist c10Task c10Edit rfl rfl (by decide),
    C10_pathless_edit_never_completes.2.1 ⟨false⟩ c10Edit ⟨⟨[], []⟩, []⟩ rfl, ?_, ?_⟩
  · exact C10_pathless_edit_never_completes.2.2.1 demoEnv 0 c10App ⟨⟨[], []⟩, []⟩
      ⟨"apply edit", .fileEdit c10Edit, .ready, []⟩ c10Edit rfl rfl rfl rfl
  · exact C10_pathless_edit_never_completes.2.2.2 c10Allowlist ⟨false⟩ c10State
      (Reachable.step Reachable.init (Step.install ⟨[], 0⟩ [c10Task])) 0
      ⟨"apply edit", .fileEdit c10Edit, .ready, []⟩ c10Edit rfl rfl rfl

end Sysaidmin
